import Mathlib

/-!
Verification of the vscode-live-themes server pipeline (fetcher / storage /
downloader / manager / cleanup command), shallowly embedded from the Python
sources in `src/server`.  Paths are plain strings; the filesystem is a pair
of file and directory listings keyed by canonical path strings; network and
archive-extraction outcomes are supplied by an explicit environment record.
-/

/-! ## Python string and path primitives

All string functions are written over the underlying character lists by
structural recursion, so every definition evaluates inside the kernel. -/

/-- `s` starts with `pre` (Python `str.startswith`). -/
def strStartsWith (s pre : String) : Bool :=
  pre.toList.isPrefixOf s.toList

/-- `s` ends with `suf` (Python `str.endswith`). -/
def strEndsWith (s suf : String) : Bool :=
  suf.toList.reverse.isPrefixOf s.toList.reverse

/-- Split a character list on a separator character; mirrors Python
`str.split(sep)` for a one-character separator. -/
def splitOnCharAux (sep : Char) : List Char → List Char → List (List Char)
  | [], acc => [acc.reverse]
  | c :: rest, acc =>
    if c = sep then acc.reverse :: splitOnCharAux sep rest []
    else splitOnCharAux sep rest (c :: acc)

/-- Split a string on `/`. -/
def splitSlash (s : String) : List String :=
  (splitOnCharAux '/' s.toList []).map String.mk

/-- Join path components with `/`. -/
def joinSlash : List String → String
  | [] => ""
  | [x] => x
  | x :: xs => x ++ "/" ++ joinSlash xs

/-- Python `str.replace("./", "")`: delete every non-overlapping occurrence
of the two-character substring `./`, scanning left to right. -/
def replaceDotSlashAux : List Char → List Char
  | '.' :: '/' :: rest => replaceDotSlashAux rest
  | c :: rest => c :: replaceDotSlashAux rest
  | [] => []

/-- String-level wrapper for `replaceDotSlashAux`. -/
def pyReplaceDotSlash (s : String) : String :=
  String.mk (replaceDotSlashAux s.toList)

/-- Python `str.lstrip("./")`: drop leading characters belonging to the set
`{'.', '/'}`. -/
def pyLstripDotSlash (s : String) : String :=
  String.mk (s.toList.dropWhile (fun c => c = '.' || c = '/'))

/-- Python `os.path.join` for two components (POSIX flavour). -/
def pyJoin (a b : String) : String :=
  if strStartsWith b "/" then b
  else if a = "" || strEndsWith a "/" then a ++ b
  else a ++ "/" ++ b

/-- Python `os.path.join` for three components. -/
def pyJoin3 (a b c : String) : String :=
  pyJoin (pyJoin a b) c

/-- Python `os.path.basename` (POSIX): the part after the last `/`. -/
def pyBasename (s : String) : String :=
  ((splitSlash s).getLast?).getD ""

/-- The root part of Python `os.path.splitext` applied to a basename:
split off the extension at the last dot, except that the leading dots of
the name never start an extension. -/
def stemOfBasename (base : String) : String :=
  let cs := base.toList
  let lead := cs.takeWhile (fun c => c = '.')
  let rest := cs.drop lead.length
  let afterR := rest.reverse.takeWhile (fun c => c ≠ '.')
  if afterR.length < rest.length then
    String.mk (lead ++ rest.take (rest.length - afterR.length - 1))
  else
    base

/-- Split a path string into its canonical components, resolving the
redundant `.` and empty components exactly as the operating system would
when the path is looked up. -/
def canonParts (s : String) : List String :=
  (splitSlash s).filter (fun c => c ≠ "" && c ≠ ".")

/-- Canonical form of a (relative) path string. -/
def canonStr (s : String) : String :=
  joinSlash (canonParts s)

/-- Proper-ancestor directories of a canonical path, shallowest first:
`a/b/c ↦ [a, a/b]`. -/
def ancestorDirs (p : String) : List String :=
  let parts := canonParts p
  (List.range (parts.length - 1)).map
    (fun i => joinSlash (parts.take (i + 1)))

/-! ## File contents

File contents are modelled at the granularity the pipeline observes: a file
either parses as JSON or not, and a JSON `package.json` either declares a
`contributes.themes` list or not.  Archive bytes are represented by
`notJson`. -/

/-- One entry of `contributes.themes` in a `package.json` manifest. -/
structure ManifestTheme where
  path : String
  label : Option String
  uiTheme : Option String
deriving Repr, DecidableEq

/-- Observable content of a regular file. -/
inductive Content where
  /-- Valid JSON carrying a `contributes.themes` list. -/
  | manifestFile (themes : List ManifestTheme)
  /-- Valid JSON without a `contributes.themes` list. -/
  | jsonOther
  /-- Data that fails to parse as JSON (e.g. archive bytes). -/
  | notJson
deriving Repr, DecidableEq

/-! ## Filesystem -/

/-- A filesystem: regular files with contents, and directories.  All stored
paths are kept in canonical form; the accessors canonicalise their argument
the way the OS resolves a path name. -/
structure FS where
  files : List (String × Content)
  dirs : List String
deriving Repr, DecidableEq

def FS.isFile (fs : FS) (p : String) : Bool :=
  fs.files.any (fun q => q.1 = canonStr p)

def FS.isDir (fs : FS) (p : String) : Bool :=
  fs.dirs.contains (canonStr p)

/-- Python `os.path.exists`. -/
def FS.pathExists (fs : FS) (p : String) : Bool :=
  fs.isFile p || fs.isDir p

/-- Content of the regular file at `p`, if any. -/
def FS.read (fs : FS) (p : String) : Option Content :=
  (fs.files.find? (fun q => q.1 = canonStr p)).map (fun q => q.2)

/-- Python `os.remove` (on a present regular file). -/
def FS.removeFile (fs : FS) (p : String) : FS :=
  { fs with files := fs.files.filter (fun q => q.1 ≠ canonStr p) }

/-- Python `os.rmdir` (on a present empty directory). -/
def FS.rmdir (fs : FS) (p : String) : FS :=
  { fs with dirs := fs.dirs.filter (fun q => q ≠ canonStr p) }

/-- Create a regular file, creating the ancestor directories as
`os.makedirs` would and overwriting any previous file at that path. -/
def FS.addFile (fs : FS) (p : String) (c : Content) : FS :=
  let q := canonStr p
  { files := fs.files.filter (fun r => r.1 ≠ q) ++ [(q, c)],
    dirs := (fs.dirs ++ ancestorDirs q).dedup }

/-- Python `os.listdir`: the immediate child names of a directory. -/
def FS.listdir (fs : FS) (base : String) : List String :=
  let b := canonParts base
  ((fs.files.map (fun q => q.1) ++ fs.dirs).filterMap (fun p =>
    let q := canonParts p
    if q.length = b.length + 1 && q.take b.length = b then q.getLast? else none)).dedup

/-! ## Listing records

Shapes follow the dictionaries built by `VSCodeThemeFetcher._build_theme_list`
and mutated by `VSCodeThemeDownloader._update_theme_info`.  Statistics values
are floating point in the source; no claim inspects the rendered numbers, so
they are modelled at integral values. -/

/-- The `publisher` sub-dictionary of a listing record. -/
structure Publisher where
  displayName : String
  publisherName : String
deriving Repr, DecidableEq

/-- The `extension` sub-dictionary of a listing record. -/
structure ExtensionInfo where
  extensionId : String
  extensionName : String
  latestVersion : String
  downloadUrl : String
deriving Repr, DecidableEq

/-- The `statistics` sub-dictionary; each key may be absent. -/
structure Stats where
  installs : Option Nat
  rating : Option Nat
  ratingcount : Option Nat
deriving Repr, DecidableEq

/-- One entry of a record's `theme_files` list, as produced by
`VSCodeThemeDownloader._process_theme`. -/
structure ThemeFile where
  file : String
  name : String
  uiTheme : String
deriving Repr, DecidableEq

/-- The `quick_pick` sub-dictionary set by `_update_theme_info`. -/
structure QuickPick where
  label : String
  description : String
  detail : String
deriving Repr, DecidableEq

/-- A listing record.  The last three fields are absent until acquisition
first succeeds. -/
structure ThemeRecord where
  categories : List String
  displayName : String
  publisher : Publisher
  tags : List String
  statistics : Stats
  ext : ExtensionInfo
  theme_files : Option (List ThemeFile)
  theme_dir : Option String
  quick_pick : Option QuickPick
deriving Repr, DecidableEq

/-! ## Display detail (`lib/utils.py`) -/

/-- Number of decimal digits of a natural number. -/
def natDigits (n : Nat) : Nat :=
  (toString n).length

/-- Rounding to three significant digits, the integral restriction of the
source's `float("{:.3g}".format(num))`. -/
def round3sig (n : Nat) : Nat :=
  let d := natDigits n
  if d ≤ 3 then n
  else
    let p := 10 ^ (d - 3)
    ((n + p / 2) / p) * p

/-- How many times the magnitude loop of `human_format` divides by 1000
(first argument is fuel). -/
def magnitudeAux : Nat → Nat → Nat
  | 0, _ => 0
  | fuel + 1, n => if 1000 ≤ n then 1 + magnitudeAux fuel (n / 1000) else 0

def magnitude (n : Nat) : Nat :=
  magnitudeAux n n

/-- Decimal digits of `num / den` (`num < den`), longest first; trailing
zeros are stripped by the caller. -/
def fracDigitsAux : Nat → Nat → Nat → List Char
  | 0, _, _ => []
  | fuel + 1, num, den =>
    if num = 0 then []
    else
      let q := num * 10 / den
      let r := num * 10 % den
      (toString q).toList ++ fracDigitsAux fuel r den

/-- `lib/utils.py::human_format`, restricted to naturals: round to three
significant digits, divide by 1000 until below 1000, print with trailing
zeros stripped, and append the magnitude suffix. -/
def human_format (num : Nat) : String :=
  let n := round3sig num
  let k := magnitude n
  let den := 1000 ^ k
  let whole := n / den
  let frac := n % den
  let fracChars := (fracDigitsAux 6 frac den).reverse.dropWhile (fun c => c = '0')
  let body :=
    if fracChars.isEmpty then toString whole
    else toString whole ++ "." ++ String.mk fracChars.reverse
  body ++ (["", "K", "M", "B", "T"].getD k "")

/-- The rating as printed by `float("{:.1f}".format(rating))`, at integral
values. -/
def formatRating (r : Nat) : String :=
  toString r ++ ".0"

/-- `lib/utils.py::get_quickpick_detail`. -/
def get_quickpick_detail (theme_files_count : Nat) (statistics : Stats) : String :=
  let detail := "$(symbol-color) " ++ toString theme_files_count ++ " "
    ++ (if 1 < theme_files_count then "Themes" else "Theme")
  let installs := statistics.installs.getD 0
  let rating := statistics.rating.getD 0
  let ratingcount := statistics.ratingcount.getD 0
  let detail :=
    if 0 < installs then
      detail ++ " | $(extensions-install-count) " ++ human_format installs
    else detail
  let detail :=
    if 0 < rating then detail ++ " | $(star-full) " ++ formatRating rating
    else detail
  if 0 < ratingcount then detail ++ "/" ++ human_format ratingcount
  else detail

/-! ## Downloader (`lib/downloader.py`)

Effects are made explicit: the environment fixes whether the HTTP download
would succeed, whether the archive extracts cleanly, and which member files
the archive contains; the returned counters record how many network requests
and extraction attempts the call performed. -/

/-- Outcome environment for one `download` call. -/
structure NetEnv where
  /-- `requests.get` + `raise_for_status` succeed. -/
  downloadOk : Bool
  /-- `zipfile.ZipFile(...).extractall` succeeds. -/
  extractOk : Bool
  /-- Member files of the archive: path relative to the extraction root,
  with content. -/
  tree : List (String × Content)
deriving Repr, DecidableEq

/-- Result of a `download` call: the returned record, the filesystem after
the call, and the number of network requests and extraction attempts. -/
structure DLResult where
  record : ThemeRecord
  fs : FS
  netCalls : Nat
  extractCalls : Nat
deriving Repr, DecidableEq

/-- The archive path `archives_dir/publisher.extension.version.vsix`. -/
def vsixPath (archives_dir pub extName ver : String) : String :=
  pyJoin archives_dir (pub ++ "." ++ extName ++ "." ++ ver ++ ".vsix")

/-- The base directory `themes_dir/publisher.extension`. -/
def themeBaseDir (themes_dir pub extName : String) : String :=
  pyJoin themes_dir (pub ++ "." ++ extName)

/-- The version directory `themes_dir/publisher.extension/version`. -/
def themeVersionDir (themes_dir pub extName ver : String) : String :=
  pyJoin3 themes_dir (pub ++ "." ++ extName) ver

/-- `VSCodeThemeDownloader._download_vsix`: skip the request when the
archive file already exists, otherwise perform one request and either write
the file or fail (`none` models the re-raised request exception).  Returns
the filesystem and the number of network calls made. -/
def download_vsix (env : NetEnv) (fs : FS) (path : String) : Option FS × Nat :=
  if fs.pathExists path then (some fs, 0)
  else if env.downloadOk then (some (fs.addFile path Content.notJson), 1)
  else (none, 1)

/-- `VSCodeThemeDownloader._has_latest_version`. -/
def has_latest_version (fs : FS) (theme_base_dir latest_version : String) : Bool :=
  if !fs.pathExists theme_base_dir then false
  else
    ((fs.listdir theme_base_dir).filter
      (fun d => fs.isDir (pyJoin theme_base_dir d))).contains latest_version

/-- `zip_ref.extractall(theme_dir)`: materialise every member of the
archive below `theme_dir`. -/
def extractTree (fs : FS) (theme_dir : String) (tree : List (String × Content)) : FS :=
  tree.foldl (fun f m => f.addFile (pyJoin theme_dir m.1) m.2) fs

/-- `VSCodeThemeDownloader._extract_vsix`: `none` models the caught
extraction failure. -/
def extract_vsix (env : NetEnv) (fs : FS) (theme_dir : String) : Option FS :=
  if env.extractOk then some (extractTree fs theme_dir env.tree) else none

/-- `VSCodeThemeDownloader._process_theme`: one `contributes.themes` entry,
dropped (`none`) when its declared file does not exist. -/
def process_theme (fs : FS) (theme_dir : String) (t : ManifestTheme) : Option ThemeFile :=
  let relative_theme_path := t.path
  let full_theme_path := pyJoin3 theme_dir "extension" relative_theme_path
  let theme_name := t.label.getD (stemOfBasename (pyBasename relative_theme_path))
  if !fs.pathExists full_theme_path then none
  else
    let cleaned_relative_path := pyLstripDotSlash relative_theme_path
    let full_path := pyLstripDotSlash (pyJoin3 theme_dir "extension" cleaned_relative_path)
    some { file := full_path, name := theme_name, uiTheme := t.uiTheme.getD "" }

/-- `VSCodeThemeDownloader._get_theme_info`: parse
`theme_dir/extension/package.json`; a missing file, unreadable file,
JSON-parse failure, or absent `contributes.themes` key all yield `[]`. -/
def get_theme_info (fs : FS) (theme_dir : String) : List ThemeFile :=
  let package_json_path := pyJoin3 theme_dir "extension" "package.json"
  if !fs.pathExists package_json_path then []
  else
    match fs.read package_json_path with
    | some (Content.manifestFile themes) => themes.filterMap (process_theme fs theme_dir)
    | some Content.jsonOther => []
    | some Content.notJson => []
    | none => []

/-- `VSCodeThemeDownloader._update_theme_info` (the `version` argument is
accepted and ignored, as in the source). -/
def update_theme_info (fs : FS) (theme : ThemeRecord) (theme_dir _version : String) :
    ThemeRecord :=
  let theme_files := get_theme_info fs theme_dir
  let detail := get_quickpick_detail theme_files.length theme.statistics
  { theme with
    theme_files := some theme_files,
    theme_dir := some theme_dir,
    quick_pick := some
      { label := theme.displayName,
        description := theme.publisher.displayName,
        detail := detail } }

/-- `VSCodeThemeDownloader.download`. -/
def download (env : NetEnv) (themes_dir archives_dir : String) (theme : ThemeRecord)
    (force : Bool) (fs : FS) : DLResult :=
  let publisher_name := theme.publisher.publisherName
  let extension_name := theme.ext.extensionName
  let version := theme.ext.latestVersion
  let theme_base_dir := themeBaseDir themes_dir publisher_name extension_name
  if !force && has_latest_version fs theme_base_dir version then
    { record := update_theme_info fs theme theme_base_dir version,
      fs := fs, netCalls := 0, extractCalls := 0 }
  else
    let vsix_path := vsixPath archives_dir publisher_name extension_name version
    let dl : Option FS × Nat :=
      if fs.pathExists vsix_path && !force then (some fs, 0)
      else download_vsix env fs vsix_path
    match dl with
    | (none, net) => { record := theme, fs := fs, netCalls := net, extractCalls := 0 }
    | (some fs1, net) =>
      let theme_dir := themeVersionDir themes_dir publisher_name extension_name version
      match extract_vsix env fs1 theme_dir with
      | none => { record := theme, fs := fs1, netCalls := net, extractCalls := 1 }
      | some fs2 =>
        let fs3 := fs2.removeFile vsix_path
        { record := update_theme_info fs3 theme theme_dir version,
          fs := fs3, netCalls := net, extractCalls := 1 }

/-! ## Metadata store (`storage.py::JSONThemeStorage.save`)

The partition file pair is modelled directly: the committed target file and
the temporary file, each either absent or holding a (possibly only
partially written) JSON payload.  A failure injection point selects which
step of the save raises. -/

/-- Contents of a partition file: either an interrupted write or a complete
JSON dump of a record list. -/
inductive FileData where
  | halfWritten
  | full (themes : List ThemeRecord)
deriving Repr, DecidableEq

/-- The two files `save` touches. -/
structure StoreState where
  target : Option FileData
  temp : Option FileData
deriving Repr, DecidableEq

/-- Which step of `save` raises, if any. -/
inductive FailAt where
  /-- `tempfile.NamedTemporaryFile` itself fails. -/
  | create
  /-- `json.dump` fails mid-write (e.g. disk full). -/
  | dump
  /-- `os.replace` fails. -/
  | rename
  /-- `os.chmod` fails, after the rename succeeded. -/
  | chmod
  /-- No step fails. -/
  | nofail
deriving Repr, DecidableEq

/-- Errors surfaced by `save`.  `unlinkMissingTemp` is the
`FileNotFoundError` raised by the cleanup handler's `os.unlink` when the
temporary file has already been renamed away. -/
inductive SaveErr where
  | createErr
  | dumpErr
  | renameErr
  | unlinkMissingTemp
deriving Repr, DecidableEq

/-- `JSONThemeStorage.save`, with an explicit failure injection point.
Returns the surfaced error (if any) and the resulting file pair. -/
def storageSave (st : StoreState) (themes : List ThemeRecord) (failAt : FailAt) :
    Option SaveErr × StoreState :=
  match failAt with
  | FailAt.create => (some SaveErr.createErr, st)
  | FailAt.dump =>
    -- temp created, write interrupted; handler unlinks the temp and re-raises
    (some SaveErr.dumpErr, { target := st.target, temp := none })
  | FailAt.rename =>
    -- temp fully written, rename fails; handler unlinks the temp and re-raises
    (some SaveErr.renameErr, { target := st.target, temp := none })
  | FailAt.chmod =>
    -- rename succeeded, chmod fails; the handler's unlink of the already
    -- renamed temp raises FileNotFoundError
    (some SaveErr.unlinkMissingTemp, { target := some (FileData.full themes), temp := none })
  | FailAt.nofail =>
    (none, { target := some (FileData.full themes), temp := none })

/-! ## Manager (`lib/manager.py`) -/

/-- `abstract.py::ThemeSortOption`. -/
inductive ThemeSortOption where
  | MostInstalled
  | ByName
  | PublishedDate
  | Publisher
  | ByRating
  | TrendingWeekly
  | UpdateDate
deriving Repr, DecidableEq

/-- Python `Enum` iteration order: declaration order. -/
def sortOptionsInOrder : List ThemeSortOption :=
  [ThemeSortOption.MostInstalled, ThemeSortOption.ByName,
   ThemeSortOption.PublishedDate, ThemeSortOption.Publisher,
   ThemeSortOption.ByRating, ThemeSortOption.TrendingWeekly,
   ThemeSortOption.UpdateDate]

/-- `ThemeManager._save_single_theme`: replace the first entry sharing the
new record's `extensionName`, or append. -/
def save_single_theme (single_themes : List ThemeRecord) (theme : ThemeRecord) :
    List ThemeRecord :=
  match single_themes.findIdx?
      (fun t => t.ext.extensionName = theme.ext.extensionName) with
  | some i => single_themes.set i theme
  | none => single_themes ++ [theme]

/-- Per-record body of `ThemeManager.check_integrity`: the missing-file and
corrupted-file messages one record contributes.  (When an asset path names
a directory the source would raise while reading it; the claim's
well-formedness hypothesis rules that out and the model records nothing.) -/
def integrity_of_theme (fs : FS) (theme : ThemeRecord) : List String × List String :=
  match theme.theme_dir with
  | none => (["Theme directory not found: None"], [])
  | some theme_dir =>
    if theme_dir = "" || !fs.pathExists theme_dir then
      (["Theme directory not found: " ++ theme_dir], [])
    else
      (theme.theme_files.getD []).foldl
        (fun acc theme_file =>
          if !fs.pathExists (pyJoin theme_dir theme_file.file) then
            (acc.1 ++ ["Missing file: " ++ pyJoin theme_dir theme_file.file], acc.2)
          else
            match fs.read (pyJoin theme_dir theme_file.file) with
            | some Content.notJson =>
              (acc.1, acc.2 ++ ["Corrupted JSON file: " ++ pyJoin theme_dir theme_file.file])
            | _ => acc)
        ([], [])

/-- `ThemeManager.check_integrity`: fold every record of the partition,
collecting all missing-file and corrupted-file findings. -/
def check_integrity (fs : FS) (themes : List ThemeRecord) : List String × List String :=
  themes.foldl
    (fun acc theme =>
      let r := integrity_of_theme fs theme
      (acc.1 ++ r.1, acc.2 ++ r.2))
    ([], [])

/-- `ThemeManager.get_all_theme_files`.  The source accumulates a Python
set and returns it as a list; downstream only membership is used, so the
insertion list is returned. -/
def get_all_theme_files (fs : FS) (themes : List ThemeRecord) : List String :=
  themes.flatMap (fun theme =>
    match theme.theme_dir with
    | none => []
    | some theme_dir =>
      if theme_dir ≠ "" && fs.pathExists theme_dir then
        (theme.theme_files.getD []).map (fun tf => pyReplaceDotSlash tf.file)
          ++ [pyReplaceDotSlash (pyJoin3 theme_dir "extension" "package.json")]
      else [])

/-- Length of the longest common prefix of two component lists. -/
def commonPrefixLen : List String → List String → Nat
  | a :: as, b :: bs => if a = b then 1 + commonPrefixLen as bs else 0
  | _, _ => 0

/-- Python `os.path.relpath` for relative inputs without `..` components
(the only shapes the pipeline produces): drop the common component prefix
and climb out of the rest of `start`. -/
def pyRelpath (path start : String) : List String :=
  let p := canonParts path
  let s := canonParts start
  let i := commonPrefixLen p s
  List.replicate (s.length - i) ".." ++ p.drop i

/-- `os.path.relpath` joined back into a string (`.` for the empty
relative path). -/
def pyRelpathStr (path start : String) : String :=
  match pyRelpath path start with
  | [] => "."
  | l => joinSlash l

/-- One `themeFiles` entry of a search-index record. -/
structure SearchThemeFile where
  name : String
  path : String
deriving Repr, DecidableEq

/-- One search-index record, as built by `ThemeManager.build_search_index`. -/
structure SearchEntry where
  label : String
  description : String
  detail : String
  extensionName : String
  themeFiles : List SearchThemeFile
deriving Repr, DecidableEq

/-- The search-index record derived from one listing record. -/
def mkSearchEntry (themes_dir : String) (theme : ThemeRecord) : SearchEntry :=
  let theme_files :=
    match theme.theme_files with
    | some tfs => tfs.map (fun tf =>
        { name := tf.name,
          path := "themes/themes/" ++ pyRelpathStr tf.file themes_dir : SearchThemeFile })
    | none => []
  { label := theme.displayName,
    description := theme.publisher.displayName,
    detail := get_quickpick_detail theme_files.length theme.statistics,
    extensionName := theme.ext.extensionName,
    themeFiles := theme_files }

/-- The concatenation order `build_search_index` iterates: every partition
in enum order, then the single-item overrides. -/
def allThemes (partitions : ThemeSortOption → List ThemeRecord)
    (singles : List ThemeRecord) : List ThemeRecord :=
  (sortOptionsInOrder.map partitions).flatten ++ singles

/-- The `unique_themes` insertion-ordered dictionary of
`build_search_index`, as an association list. -/
def indexFold (themes_dir : String) (acc : List (String × SearchEntry))
    (themes : List ThemeRecord) : List (String × SearchEntry) :=
  themes.foldl
    (fun acc theme =>
      let extension_name := theme.ext.extensionName
      if acc.any (fun p => p.1 = extension_name) then acc
      else acc ++ [(extension_name, mkSearchEntry themes_dir theme)])
    acc

/-- `ThemeManager.build_search_index`: the list written to `search.json`. -/
def build_search_index (partitions : ThemeSortOption → List ThemeRecord)
    (singles : List ThemeRecord) (themes_dir : String) : List SearchEntry :=
  (indexFold themes_dir [] (allThemes partitions singles)).map (fun p => p.2)

/-! ## Cleanup command (`lib/command.py::cleanup`) -/

/-- A canonical component list `q` lies strictly below the base components
`b`. -/
def strictlyUnder (b q : List String) : Bool :=
  decide (b.length < q.length) && q.take b.length = b

/-- A path component is hidden from `glob` when it starts with a dot. -/
def hiddenComp (c : String) : Bool :=
  strStartsWith c "."

/-- `glob.glob(os.path.join(themes_dir, "**", "*"), recursive=True)`: every
file and directory below `themes_dir` all of whose relative components are
non-hidden, returned as the pattern root joined with the relative part. -/
def globAll (fs : FS) (themes_dir : String) : List String :=
  let b := canonParts themes_dir
  (fs.files.map (fun q => q.1) ++ fs.dirs).filterMap (fun p =>
    let q := canonParts p
    if strictlyUnder b q && (q.drop b.length).all (fun c => !hiddenComp c) then
      some (themes_dir ++ "/" ++ joinSlash (q.drop b.length))
    else none)

/-- The file-deletion phase of `cleanup`: remove each candidate that is a
regular file. -/
def deleteFiles (fs : FS) (files_to_delete : List String) : FS :=
  files_to_delete.foldl
    (fun f p => if f.isFile p then f.removeFile p else f)
    fs

/-- The directory `d` has an immediate child (file or directory) in `fs`;
`os.listdir(d)` is nonempty. -/
def FS.hasChild (fs : FS) (d : String) : Bool :=
  let b := canonParts d
  (fs.files.any (fun q => strictlyUnder b (canonParts q.1)))
    || (fs.dirs.any (fun q => strictlyUnder b (canonParts q)))

/-- Directories of `fs` strictly below `base`. -/
def dirsUnder (fs : FS) (base : String) : List String :=
  fs.dirs.filter (fun d => strictlyUnder (canonParts base) (canonParts d))

/-- Deeper-or-equal ordering on paths, used to process directories
deepest first. -/
def depthGE (a b : String) : Prop :=
  (canonParts b).length ≤ (canonParts a).length

instance : DecidableRel depthGE :=
  fun a b => Nat.decLe (canonParts b).length (canonParts a).length

instance : IsTotal String depthGE :=
  ⟨fun a b => Nat.le_total (canonParts b).length (canonParts a).length⟩

instance : IsTrans String depthGE :=
  ⟨fun _ _ _ h h' => Nat.le_trans h' h⟩

/-- The loop body of the empty-directory phase, over an explicit visit
order. -/
def rmdirFold (fs : FS) (ds : List String) : FS :=
  ds.foldl
    (fun f d => if !f.hasChild d then f.rmdir d else f)
    fs

/-- The empty-directory phase of `cleanup`: `os.walk(themes_dir,
topdown=False)` visits every directory after all of its descendants, and
each directory found empty is removed; processing the directories in any
deepest-first order computes the same result, so they are processed in
depth-sorted order. -/
def removeEmptyDirs (fs : FS) (themes_dir : String) : FS :=
  rmdirFold fs ((dirsUnder fs themes_dir).insertionSort depthGE)

/-- `lib/command.py::cleanup`, for the record lists of the managers and the
shared extracted-tree root: protect every path referenced by
`get_all_theme_files`, delete every other (non-hidden) regular file found
below the root, then prune empty directories bottom-up. -/
def cleanup (recordLists : List (List ThemeRecord)) (themes_dir : String) (fs : FS) : FS :=
  let all_theme_files := recordLists.flatMap (get_all_theme_files fs)
  let all_files_in_dir := (globAll fs themes_dir).map pyReplaceDotSlash
  let files_to_delete :=
    all_files_in_dir.filter (fun p => !all_theme_files.contains p)
  let fs1 := deleteFiles fs files_to_delete
  removeEmptyDirs fs1 themes_dir

/-- Per-record well-formedness for the integrity check: no asset path that
exists on disk resolves to a directory (the source would raise
`IsADirectoryError` while reading it, which `check_integrity` does not
catch). -/
def assetOkOne (fs : FS) (theme : ThemeRecord) : Bool :=
  match theme.theme_dir with
  | none => true
  | some d =>
    if d = "" || !fs.pathExists d then true
    else (theme.theme_files.getD []).all (fun tf =>
      !fs.pathExists (pyJoin d tf.file) || fs.isFile (pyJoin d tf.file))

/-- Well-formedness of a partition for the integrity check. -/
def assetsAreFiles (fs : FS) (themes : List ThemeRecord) : Bool :=
  themes.all (assetOkOne fs)

/-- The missing-file findings one record should contribute, following the
claim's words: a directory failure iff the cache directory is absent or
does not exist, else one missing-file failure per asset whose file does not
exist. -/
def specMissingOne (fs : FS) (theme : ThemeRecord) : List String :=
  match theme.theme_dir with
  | none => ["Theme directory not found: None"]
  | some d =>
    if d = "" || !fs.pathExists d then ["Theme directory not found: " ++ d]
    else
      ((theme.theme_files.getD []).filter
          (fun tf => !fs.pathExists (pyJoin d tf.file))).map
        (fun tf => "Missing file: " ++ pyJoin d tf.file)

/-- The corrupted-file findings one record should contribute, following the
claim's words: for a record whose cache directory exists, one failure per
asset whose file exists but fails to parse as JSON. -/
def specCorruptedOne (fs : FS) (theme : ThemeRecord) : List String :=
  match theme.theme_dir with
  | none => []
  | some d =>
    if d = "" || !fs.pathExists d then []
    else
      ((theme.theme_files.getD []).filter
          (fun tf => fs.pathExists (pyJoin d tf.file)
            && decide (fs.read (pyJoin d tf.file) = some Content.notJson))).map
        (fun tf => "Corrupted JSON file: " ++ pyJoin d tf.file)

/-- All missing-file findings over a partition, following the claim. -/
def specIntegrityMissing (fs : FS) (themes : List ThemeRecord) : List String :=
  themes.flatMap (specMissingOne fs)

/-- All corrupted-file findings over a partition, following the claim. -/
def specIntegrityCorrupted (fs : FS) (themes : List ThemeRecord) : List String :=
  themes.flatMap (specCorruptedOne fs)

/-- The `./`-stripping idiom of `cleanup` does not corrupt the path `p`
when it lies below the cache root: replacing `./` in the glob string the
walk would produce for `p` yields `p` itself.  (It can corrupt a path — a
component ending in a dot, say — which the well-formedness hypothesis of
the reconciliation claim excludes.) -/
def globCleanUnder (themes_dir p : String) : Bool :=
  let b := canonParts themes_dir
  let q := canonParts p
  !(strictlyUnder b q)
    || (pyReplaceDotSlash (themes_dir ++ "/" ++ joinSlash (q.drop b.length)) = p)

/-- Well-formedness of the cache filesystem for reconciliation: every
stored path is canonical and survives the `./`-stripping idiom. -/
def fsWellFormed (themes_dir : String) (fs : FS) : Bool :=
  (fs.files.all (fun q => canonStr q.1 = q.1 && globCleanUnder themes_dir q.1))
    && (fs.dirs.all (fun p => canonStr p = p && globCleanUnder themes_dir p))

/-- Well-formedness of the record lists for reconciliation: every path a
record contributes to the protected set (asset paths and the manifest path
of a record with an existing cache directory) equals its canonical form
after `./`-stripping. -/
def recordsClean (fs : FS) (recordLists : List (List ThemeRecord)) : Bool :=
  recordLists.all (fun records => records.all (fun theme =>
    match theme.theme_dir with
    | none => true
    | some d =>
      if d ≠ "" && fs.pathExists d then
        (theme.theme_files.getD []).all
            (fun tf => pyReplaceDotSlash tf.file = canonStr tf.file)
          && decide (pyReplaceDotSlash (pyJoin3 d "extension" "package.json")
              = canonStr (pyJoin3 d "extension" "package.json"))
      else true))

/-! ## Helper and sample definitions -/

/-- Structural form of `save_single_theme` (replace the first match, else
append), convenient for induction. -/
def upsertSpec (l : List ThemeRecord) (t : ThemeRecord) : List ThemeRecord :=
  match l with
  | [] => [t]
  | x :: xs =>
    if x.ext.extensionName = t.ext.extensionName then t :: xs
    else x :: upsertSpec xs t

/-- A concrete listing record used in witnesses. -/
def sampleTheme : ThemeRecord :=
  { categories := ["Themes"], displayName := "Dark Pro",
    publisher := { displayName := "Acme Inc", publisherName := "acme" },
    tags := ["theme"],
    statistics := { installs := some 1200, rating := some 4, ratingcount := some 10 },
    ext := { extensionId := "uuid-1", extensionName := "dark-pro",
             latestVersion := "1.2.0",
             downloadUrl := "https://x/acme.dark-pro.vsix" },
    theme_files := none, theme_dir := none, quick_pick := none }

/-- The same listing at a newer version. -/
def sampleThemeV2 : ThemeRecord :=
  { sampleTheme with
    ext := { sampleTheme.ext with latestVersion := "1.3.0" } }

/-- Environment of the C1 scenario: download and extraction succeed, and the
archive carries a manifest declaring one theme whose file is present. -/
def c1Env : NetEnv :=
  { downloadOk := true, extractOk := true,
    tree := [("extension/package.json",
               Content.manifestFile
                 [{ path := "./themes/dark.json", label := some "Dark",
                    uiTheme := some "vs-dark" }]),
             ("extension/themes/dark.json", Content.jsonOther)] }

/-- Initial filesystem of the C1 scenario: the two cache roots exist (the
downloader's constructor creates them) and nothing else. -/
def c1FS : FS :=
  { files := [], dirs := ["themes", "themes/themes", "themes/archives"] }

/-- A cache tree holding one hidden file, for the C4 counterexample: glob
never matches it, so `cleanup` leaves it although nothing references it. -/
def c4HiddenFS : FS :=
  { files := [("t/p.e/1.0/.hidden", Content.jsonOther)],
    dirs := ["t", "t/p.e", "t/p.e/1.0"] }

/-- A cache tree holding one ordinary file, for the C4 counterexample. -/
def c4PlainFS : FS :=
  { files := [("t/x.json", Content.jsonOther)], dirs := ["t"] }

/-- A record whose recorded cache directory does not exist but whose asset
list references an existing file: `get_all_theme_files` skips it, so
`cleanup` deletes the referenced file. -/
def c4RecNoDir : ThemeRecord :=
  { sampleTheme with
    theme_dir := some "missing",
    theme_files := some [{ file := "t/x.json", name := "X", uiTheme := "" }] }

/-- The cache tree of the C4 witness: one record's extracted version
directory with its manifest and one theme file, plus one stray file. -/
def c4WitFS : FS :=
  { files := [("t/p.e/1.0/extension/package.json",
                Content.manifestFile
                  [{ path := "themes/a.json", label := some "A", uiTheme := none }]),
              ("t/p.e/1.0/extension/themes/a.json", Content.jsonOther),
              ("t/junk.json", Content.jsonOther)],
    dirs := ["t", "t/p.e", "t/p.e/1.0", "t/p.e/1.0/extension",
             "t/p.e/1.0/extension/themes"] }

/-- The record of the C4 witness. -/
def c4WitRec : ThemeRecord :=
  { sampleTheme with
    theme_dir := some "t/p.e/1.0",
    theme_files := some [{ file := "t/p.e/1.0/extension/themes/a.json",
                           name := "A", uiTheme := "" }] }

/-- The fields of a record that `download` must not change: everything
except `theme_files`, `theme_dir` and `quick_pick`. -/
def frameFields (t : ThemeRecord) :
    List String × String × Publisher × List String × Stats × ExtensionInfo :=
  (t.categories, t.displayName, t.publisher, t.tags, t.statistics, t.ext)

/-- First acquisition of `sampleTheme` on the empty cache, at the source's
default directories. -/
def c1First : DLResult :=
  download c1Env "./themes/themes" "./themes/archives" sampleTheme false c1FS

/-- Second acquisition of the same unchanged listing, on the filesystem the
first one produced. -/
def c1Second : DLResult :=
  download c1Env "./themes/themes" "./themes/archives" sampleTheme false c1First.fs

example : human_format 1234567 = "1.23M" := by decide
example : human_format 999 = "999" := by decide
example : human_format 1500 = "1.5K" := by decide

example : pyReplaceDotSlash "./a/b./c" = "a/bc" := by decide
example : pyLstripDotSlash ".//./x/y" = "x/y" := by decide
example : pyJoin3 "./themes" "pub.ext" "1.0" = "./themes/pub.ext/1.0" := by decide
example : stemOfBasename "dark.json" = "dark" := by decide
example : stemOfBasename ".bashrc" = ".bashrc" := by decide
example : pyBasename "./themes/dark-pro.json" = "dark-pro.json" := by decide
example : canonStr "./a//b/./c" = "a/b/c" := by decide
example : ancestorDirs "a/b/c" = ["a", "a/b"] := by decide

/-! ## Facts about the single-theme upsert -/

theorem save_single_eq_upsertSpec (l : List ThemeRecord) (t : ThemeRecord) :
    save_single_theme l t = upsertSpec l t := by
  induction l with
  | nil => rfl
  | cons x xs ih =>
    unfold save_single_theme at ih ⊢
    rw [List.findIdx?_cons]
    by_cases hx : x.ext.extensionName = t.ext.extensionName
    · simp [hx, upsertSpec]
    · simp only [hx, decide_False, Bool.false_eq_true, if_false, List.findIdx?_succ]
      cases h : xs.findIdx? (fun s => s.ext.extensionName = t.ext.extensionName) with
      | none =>
        simp [upsertSpec, hx, ← ih]
        rw [h]
      | some i =>
        simp [upsertSpec, hx, ← ih]
        rw [h]

theorem mem_upsertSpec {l : List ThemeRecord} {t s : ThemeRecord}
    (h : s ∈ upsertSpec l t) : s = t ∨ s ∈ l := by
  induction l with
  | nil => simpa [upsertSpec] using h
  | cons x xs ih =>
    by_cases hx : x.ext.extensionName = t.ext.extensionName
    · simp only [upsertSpec, hx, if_pos] at h
      rcases List.mem_cons.mp h with h1 | h1
      · exact Or.inl h1
      · exact Or.inr (List.mem_cons_of_mem _ h1)
    · simp only [upsertSpec, hx, if_neg, not_false_iff] at h
      rcases List.mem_cons.mp h with h1 | h1
      · exact Or.inr (h1 ▸ List.mem_cons_self _ _)
      · rcases ih h1 with h2 | h2
        · exact Or.inl h2
        · exact Or.inr (List.mem_cons_of_mem _ h2)

theorem upsertSpec_names_nodup {l : List ThemeRecord} (t : ThemeRecord)
    (h : (l.map (fun s => s.ext.extensionName)).Nodup) :
    ((upsertSpec l t).map (fun s => s.ext.extensionName)).Nodup := by
  induction l with
  | nil => simp [upsertSpec]
  | cons x xs ih =>
    simp only [List.map_cons, List.nodup_cons] at h
    by_cases hx : x.ext.extensionName = t.ext.extensionName
    · simp only [upsertSpec, hx, if_pos, List.map_cons, List.nodup_cons]
      exact ⟨hx ▸ h.1, h.2⟩
    · simp only [upsertSpec, hx, if_neg, not_false_iff, List.map_cons, List.nodup_cons]
      refine ⟨?_, ih h.2⟩
      intro hmem
      rcases List.mem_map.mp hmem with ⟨s, hs, hname⟩
      rcases mem_upsertSpec hs with rfl | hsl
      · exact hx hname.symm
      · exact h.1 (List.mem_map.mpr ⟨s, hsl, hname⟩)

theorem upsertSpec_countP {l : List ThemeRecord} (t : ThemeRecord)
    (h : (l.map (fun s => s.ext.extensionName)).Nodup) :
    (upsertSpec l t).countP (fun s => s.ext.extensionName = t.ext.extensionName) = 1 := by
  induction l with
  | nil => simp [upsertSpec]
  | cons x xs ih =>
    simp only [List.map_cons, List.nodup_cons] at h
    by_cases hx : x.ext.extensionName = t.ext.extensionName
    · simp only [upsertSpec, hx, if_pos]
      rw [List.countP_cons]
      have hz : xs.countP (fun s => s.ext.extensionName = t.ext.extensionName) = 0 := by
        rw [List.countP_eq_zero]
        intro s hs hname
        exact h.1 (List.mem_map.mpr ⟨s, hs, by
          simpa [hx] using of_decide_eq_true hname⟩)
      simp [hz]
    · simp only [upsertSpec, hx, if_neg, not_false_iff]
      rw [List.countP_cons]
      simp [hx, ih h.2]

theorem upsertSpec_find? (l : List ThemeRecord) (t : ThemeRecord) :
    (upsertSpec l t).find? (fun s => s.ext.extensionName = t.ext.extensionName)
      = some t := by
  induction l with
  | nil => simp [upsertSpec]
  | cons x xs ih =>
    by_cases hx : x.ext.extensionName = t.ext.extensionName
    · simp [upsertSpec, hx]
    · simp [upsertSpec, hx, List.find?_cons, ih]

theorem upsertSpec_filter_other (l : List ThemeRecord) (t : ThemeRecord) (n : String)
    (hn : n ≠ t.ext.extensionName) :
    (upsertSpec l t).filter (fun s => s.ext.extensionName = n)
      = l.filter (fun s => s.ext.extensionName = n) := by
  have hn' : ¬ t.ext.extensionName = n := fun hh => hn hh.symm
  induction l with
  | nil => simp [upsertSpec, hn']
  | cons x xs ih =>
    by_cases hx : x.ext.extensionName = t.ext.extensionName
    · have hxn : ¬ x.ext.extensionName = n := fun hh => hn' (hx ▸ hh)
      simp [upsertSpec, hx, List.filter_cons, hxn, hn']
    · simp [upsertSpec, hx, List.filter_cons, ih]

/-! ## Claim C9 -/

/-- C9: single-item acquisition upserts.  Starting from an override
collection with distinct `extensionName`s, `_save_single_theme` keeps the
names distinct, leaves exactly one entry carrying the saved record's
`extensionName` — the saved record itself, replacing a match in place —
leaves every other name's entries untouched, and saving a second record
with the same `extensionName` (e.g. a different `latestVersion`) again
leaves exactly one entry for it, holding the later record. -/
theorem claimC9_single_theme_upsert (singles : List ThemeRecord) (theme : ThemeRecord)
    (h : (singles.map (fun s => s.ext.extensionName)).Nodup) :
    ((save_single_theme singles theme).map (fun s => s.ext.extensionName)).Nodup
    ∧ (save_single_theme singles theme).countP
        (fun s => s.ext.extensionName = theme.ext.extensionName) = 1
    ∧ (save_single_theme singles theme).find?
        (fun s => s.ext.extensionName = theme.ext.extensionName) = some theme
    ∧ (∀ n, n ≠ theme.ext.extensionName →
        (save_single_theme singles theme).filter (fun s => s.ext.extensionName = n)
          = singles.filter (fun s => s.ext.extensionName = n))
    ∧ ∀ theme2 : ThemeRecord, theme2.ext.extensionName = theme.ext.extensionName →
        (save_single_theme (save_single_theme singles theme) theme2).countP
            (fun s => s.ext.extensionName = theme.ext.extensionName) = 1
        ∧ (save_single_theme (save_single_theme singles theme) theme2).find?
            (fun s => s.ext.extensionName = theme.ext.extensionName) = some theme2 := by
  rw [save_single_eq_upsertSpec]
  refine ⟨upsertSpec_names_nodup theme h, upsertSpec_countP theme h,
    upsertSpec_find? singles theme,
    fun n hn => upsertSpec_filter_other singles theme n hn, ?_⟩
  intro theme2 h2
  rw [save_single_eq_upsertSpec]
  constructor
  · have hc := upsertSpec_countP theme2 (upsertSpec_names_nodup theme h)
    rwa [h2] at hc
  · have hf := upsertSpec_find? (upsertSpec singles theme) theme2
    rwa [h2] at hf

/-- Witness for C9: saving `sampleTheme` and then its newer version into an
empty override collection leaves exactly one `dark-pro` entry, the newer
record. -/
theorem claimC9_witness :
    (save_single_theme (save_single_theme [] sampleTheme) sampleThemeV2).countP
        (fun s => s.ext.extensionName = sampleTheme.ext.extensionName) = 1
    ∧ (save_single_theme (save_single_theme [] sampleTheme) sampleThemeV2).find?
        (fun s => s.ext.extensionName = sampleTheme.ext.extensionName)
      = some sampleThemeV2 :=
  (claimC9_single_theme_upsert [] sampleTheme (by decide)).2.2.2.2 sampleThemeV2
    (by decide)

/-! ## Claim C2 -/

/-- C2 (amended): the metadata save writes the full JSON to a temporary
file and renames it over the target.  If creating the temporary file, the
JSON dump, or the rename fails, the error propagates, the temporary file is
gone and the target keeps its previous committed content; if the permission
change after the successful rename fails, an error still propagates, the
temporary file is gone, and the target holds the complete new content.  In
every case the target is never truncated and never absent if it previously
existed. -/
theorem claimC2_storage_save_atomic (st : StoreState) (themes : List ThemeRecord)
    (failAt : FailAt) :
    ((storageSave st themes failAt).1.isSome ↔ failAt ≠ FailAt.nofail)
    ∧ (failAt = FailAt.create → (storageSave st themes failAt).2 = st)
    ∧ (failAt = FailAt.dump ∨ failAt = FailAt.rename →
        (storageSave st themes failAt).2 = { target := st.target, temp := none })
    ∧ (failAt = FailAt.chmod ∨ failAt = FailAt.nofail →
        (storageSave st themes failAt).2
          = { target := some (FileData.full themes), temp := none })
    ∧ (st.target.isSome → (storageSave st themes failAt).2.target.isSome)
    ∧ (st.target ≠ some FileData.halfWritten →
        (storageSave st themes failAt).2.target ≠ some FileData.halfWritten) := by
  cases failAt <;> simp [storageSave]

/-- C2 counterexample: with a previously committed empty partition list, a
save of one record failing at the `chmod` step (after the rename) leaves
the target at the new content — not, as the claim states for every failing
step, at its previous committed content. -/
theorem claimC2_counterexample :
    (storageSave { target := some (FileData.full []), temp := none } [sampleTheme]
        FailAt.chmod).2.target = some (FileData.full [sampleTheme])
    ∧ (storageSave { target := some (FileData.full []), temp := none } [sampleTheme]
        FailAt.chmod).2.target ≠ some (FileData.full []) := by
  exact ⟨rfl, by decide⟩

/-! ## Claim C10 -/

theorem frameFields_update_theme_info (fs : FS) (t : ThemeRecord) (d v : String) :
    frameFields (update_theme_info fs t d v) = frameFields t := rfl

/-- C10: `download` frames its effect on the record: on every path the
returned record agrees with the input record on every field other than
`theme_files`, `theme_dir` and `quick_pick`.  (In the embedding records are
immutable values; the source's failure paths return the input dictionary
itself and its success paths operate on `theme.copy()`.) -/
theorem claimC10_download_frame (env : NetEnv) (themes_dir archives_dir : String)
    (theme : ThemeRecord) (force : Bool) (fs : FS) :
    frameFields (download env themes_dir archives_dir theme force fs).record
      = frameFields theme := by
  unfold download
  dsimp only
  split
  · rfl
  · split
    · rfl
    · split
      · rfl
      · rfl

/-! ## Claims C5 and C8 -/

theorem FS.isFile_removeFile_self (fs : FS) (p : String) :
    (fs.removeFile p).isFile p = false := by
  simp only [FS.removeFile, FS.isFile]
  rw [Bool.eq_false_iff]
  intro hc
  obtain ⟨x, hx, hx2⟩ := List.any_eq_true.mp hc
  obtain ⟨-, hq⟩ := List.mem_filter.mp hx
  rw [of_decide_eq_true hx2] at hq
  simp at hq

/-- C5: per-record failure falls back to the original record.  When the
version cache gate does not fire and either the network download fails (no
archive already on disk and the request errors) or the archive fails to
extract, `download` returns the input record unchanged; the embedded
`download` is a total function, so no exception escapes to the enclosing
batch. -/
theorem claimC5_download_failure_fallback (env : NetEnv)
    (themes_dir archives_dir : String) (theme : ThemeRecord) (force : Bool) (fs : FS)
    (hgate : (!force && has_latest_version fs
        (themeBaseDir themes_dir theme.publisher.publisherName theme.ext.extensionName)
        theme.ext.latestVersion) = false)
    (hfail : (fs.pathExists (vsixPath archives_dir theme.publisher.publisherName
          theme.ext.extensionName theme.ext.latestVersion) = false
        ∧ env.downloadOk = false)
      ∨ env.extractOk = false) :
    (download env themes_dir archives_dir theme force fs).record = theme := by
  unfold download
  dsimp only
  rw [hgate]
  simp only [Bool.false_eq_true, if_false]
  rcases hfail with ⟨hnf, hdl⟩ | hex
  · simp [hnf, hdl, download_vsix]
  · split
    · rfl
    · simp [extract_vsix, hex]

/-- Witness for C5: with a failing network and an empty cache, downloading
`sampleTheme` returns it unchanged. -/
theorem claimC5_witness :
    (download { downloadOk := false, extractOk := false, tree := [] }
        "./themes/themes" "./themes/archives" sampleTheme false c1FS).record
      = sampleTheme :=
  claimC5_download_failure_fallback
    { downloadOk := false, extractOk := false, tree := [] }
    "./themes/themes" "./themes/archives" sampleTheme false c1FS
    (by decide) (Or.inl ⟨by decide, rfl⟩)

/-- C8: archives are transient.  When the version cache gate does not fire,
the archive is available (already on disk or freshly downloaded) and
extraction succeeds, `download` deletes the archive file before returning:
the returned filesystem no longer contains it. -/
theorem claimC8_archive_transient (env : NetEnv)
    (themes_dir archives_dir : String) (theme : ThemeRecord) (force : Bool) (fs : FS)
    (hgate : (!force && has_latest_version fs
        (themeBaseDir themes_dir theme.publisher.publisherName theme.ext.extensionName)
        theme.ext.latestVersion) = false)
    (hdl : fs.pathExists (vsixPath archives_dir theme.publisher.publisherName
          theme.ext.extensionName theme.ext.latestVersion) = true
      ∨ env.downloadOk = true)
    (hex : env.extractOk = true) :
    (download env themes_dir archives_dir theme force fs).fs.isFile
        (vsixPath archives_dir theme.publisher.publisherName
          theme.ext.extensionName theme.ext.latestVersion) = false
    ∧ (download env themes_dir archives_dir theme force fs).extractCalls = 1 := by
  unfold download
  dsimp only
  rw [hgate]
  simp only [Bool.false_eq_true, if_false]
  rcases hdl with hpe | hok
  · simp [hpe, download_vsix, extract_vsix, hex, FS.isFile_removeFile_self]
  · by_cases hpe : fs.pathExists (vsixPath archives_dir theme.publisher.publisherName
        theme.ext.extensionName theme.ext.latestVersion) = true
    · simp [hpe, download_vsix, extract_vsix, hex, FS.isFile_removeFile_self]
    · rw [Bool.not_eq_true] at hpe
      simp [hpe, download_vsix, hok, extract_vsix, hex, FS.isFile_removeFile_self]

/-- Witness for C8: the first C1-scenario acquisition deletes its archive. -/
theorem claimC8_witness :
    (download c1Env "./themes/themes" "./themes/archives" sampleTheme false c1FS).fs.isFile
        (vsixPath "./themes/archives" sampleTheme.publisher.publisherName
          sampleTheme.ext.extensionName sampleTheme.ext.latestVersion) = false
    ∧ (download c1Env "./themes/themes" "./themes/archives" sampleTheme false
        c1FS).extractCalls = 1 :=
  claimC8_archive_transient c1Env "./themes/themes" "./themes/archives" sampleTheme
    false c1FS (by decide) (Or.inr rfl) rfl

/-! ## Claim C1 -/

/-- C1: the cached skip path of `download` is not idempotent.  In the
concrete scenario a first acquisition succeeds (one theme asset, version
directory `./themes/themes/acme.dark-pro/1.2.0`).  The second call on the
unchanged listing performs zero network calls and zero extraction attempts,
as specified — but it passes the *base* directory
`./themes/themes/acme.dark-pro` instead of the version directory to
`_update_theme_info`, so the returned `theme_dir` differs from the first
run's and the recomputed `theme_files` list (read from
`acme.dark-pro/extension/package.json`, which does not exist) is empty. -/
theorem claimC1_skip_path_divergence :
    c1Second.netCalls = 0 ∧ c1Second.extractCalls = 0
    ∧ c1First.record.theme_dir = some "./themes/themes/acme.dark-pro/1.2.0"
    ∧ c1Second.record.theme_dir = some "./themes/themes/acme.dark-pro"
    ∧ c1First.record.theme_files
        = some [{ file := "themes/themes/acme.dark-pro/1.2.0/extension/themes/dark.json",
                  name := "Dark", uiTheme := "vs-dark" }]
    ∧ c1Second.record.theme_files = some []
    ∧ c1First.record.theme_dir ≠ c1Second.record.theme_dir := by
  decide

/-! ## Claim C6 -/

theorem FS.pathExists_of_read {fs : FS} {p : String} {c : Content}
    (h : fs.read p = some c) : fs.pathExists p = true := by
  unfold FS.read at h
  unfold FS.pathExists FS.isFile
  cases hf : fs.files.find? (fun q => q.1 = canonStr p) with
  | none => rw [hf] at h; simp at h
  | some q =>
    have hq := List.find?_some hf
    have hmem := List.mem_of_find?_eq_some hf
    rw [Bool.or_eq_true]
    exact Or.inl (List.any_eq_true.mpr ⟨q, hmem, hq⟩)

theorem process_theme_isSome (fs : FS) (dir : String) (t : ManifestTheme) :
    (process_theme fs dir t).isSome
      = fs.pathExists (pyJoin3 dir "extension" t.path) := by
  unfold process_theme
  cases h : fs.pathExists (pyJoin3 dir "extension" t.path) <;> simp [h]

theorem process_theme_eq_some {fs : FS} {dir : String} {t : ManifestTheme}
    {a : ThemeFile} (h : process_theme fs dir t = some a) :
    fs.pathExists (pyJoin3 dir "extension" t.path) = true
    ∧ a = { file := pyLstripDotSlash (pyJoin3 dir "extension" (pyLstripDotSlash t.path)),
            name := t.label.getD (stemOfBasename (pyBasename t.path)),
            uiTheme := t.uiTheme.getD "" } := by
  unfold process_theme at h
  dsimp only at h
  cases hp : fs.pathExists (pyJoin3 dir "extension" t.path) with
  | false => rw [hp] at h; simp at h
  | true =>
    rw [hp] at h
    simp only [Bool.not_true, Bool.false_eq_true, if_false, Option.some.injEq] at h
    exact ⟨rfl, h.symm⟩

theorem get_theme_info_manifest {fs : FS} {dir : String}
    {entries : List ManifestTheme}
    (h : fs.read (pyJoin3 dir "extension" "package.json")
      = some (Content.manifestFile entries)) :
    get_theme_info fs dir = entries.filterMap (process_theme fs dir) := by
  unfold get_theme_info
  dsimp only
  rw [FS.pathExists_of_read h]
  simp [h]

theorem countP_not_add {α : Type} (p : α → Bool) (l : List α) :
    l.countP p + l.countP (fun a => !p a) = l.length := by
  induction l with
  | nil => rfl
  | cons x xs ih =>
    rw [List.countP_cons, List.countP_cons]
    cases h : p x <;> simp [h] <;> omega

/-- C6: manifest parsing skips per entry, never per record.  When the
manifest parses and declares `n` theme contributions of which `k` resolve
to files absent from the extracted root, the asset list has exactly `n − k`
entries (stated additively), each derived from a declared entry whose file
exists, with the declared-or-derived name and the `./`-stripped normalized
path; a missing or unparsable manifest yields zero assets; and in every
case `_update_theme_info` still returns the record updated with whatever
asset list resulted. -/
theorem claimC6_manifest_per_entry (fs : FS) (theme_dir : String) :
    (∀ entries : List ManifestTheme,
      fs.read (pyJoin3 theme_dir "extension" "package.json")
          = some (Content.manifestFile entries) →
        (get_theme_info fs theme_dir).length
            + entries.countP
                (fun t => !fs.pathExists (pyJoin3 theme_dir "extension" t.path))
          = entries.length
        ∧ ∀ a ∈ get_theme_info fs theme_dir,
            ∃ t ∈ entries, fs.pathExists (pyJoin3 theme_dir "extension" t.path) = true
              ∧ a = { file := pyLstripDotSlash
                        (pyJoin3 theme_dir "extension" (pyLstripDotSlash t.path)),
                      name := t.label.getD (stemOfBasename (pyBasename t.path)),
                      uiTheme := t.uiTheme.getD "" })
    ∧ (fs.read (pyJoin3 theme_dir "extension" "package.json")
          = some Content.notJson → get_theme_info fs theme_dir = [])
    ∧ (fs.pathExists (pyJoin3 theme_dir "extension" "package.json") = false →
        get_theme_info fs theme_dir = [])
    ∧ ∀ (theme : ThemeRecord) (v : String),
        (update_theme_info fs theme theme_dir v).theme_files
          = some (get_theme_info fs theme_dir) := by
  refine ⟨?_, ?_, ?_, fun theme v => rfl⟩
  · intro entries h
    constructor
    · rw [get_theme_info_manifest h, List.length_filterMap_eq_countP]
      have hc : entries.countP (fun t => (process_theme fs theme_dir t).isSome)
          = entries.countP
              (fun t => fs.pathExists (pyJoin3 theme_dir "extension" t.path)) := by
        apply List.countP_congr
        intro t _
        rw [process_theme_isSome]
      rw [hc]
      exact countP_not_add _ entries
    · intro a ha
      rw [get_theme_info_manifest h] at ha
      obtain ⟨t, ht, hsome⟩ := List.mem_filterMap.mp ha
      obtain ⟨hex, hform⟩ := process_theme_eq_some hsome
      exact ⟨t, ht, hex, hform⟩
  · intro h
    unfold get_theme_info
    dsimp only
    rw [FS.pathExists_of_read h]
    simp [h]
  · intro h
    unfold get_theme_info
    dsimp only
    rw [h]
    simp

/-- The C6 hypotheses hold on the C1 scenario's extracted tree: the
manifest declares one theme whose file exists, and the asset list has one
entry. -/
example :
    c1First.fs.read (pyJoin3 "./themes/themes/acme.dark-pro/1.2.0" "extension"
        "package.json")
      = some (Content.manifestFile
          [{ path := "./themes/dark.json", label := some "Dark",
             uiTheme := some "vs-dark" }])
    ∧ (get_theme_info c1First.fs "./themes/themes/acme.dark-pro/1.2.0").length = 1 := by
  decide

/-! ## Claim C7 -/

theorem FS.read_of_isFile {fs : FS} {p : String} (h : fs.isFile p = true) :
    ∃ c, fs.read p = some c := by
  unfold FS.isFile at h
  obtain ⟨x, hx, hx2⟩ := List.any_eq_true.mp h
  unfold FS.read
  cases hf : fs.files.find? (fun q => q.1 = canonStr p) with
  | none => exact absurd (List.find?_eq_none.mp hf x hx) (by simp [hx2])
  | some q => exact ⟨q.2, by simp⟩

theorem integrity_fold_spec (fs : FS) (d : String) (tfs : List ThemeFile)
    (h : ∀ tf ∈ tfs, fs.pathExists (pyJoin d tf.file) = true →
        fs.isFile (pyJoin d tf.file) = true)
    (acc : List String × List String) :
    tfs.foldl
      (fun acc theme_file =>
        if !fs.pathExists (pyJoin d theme_file.file) then
          (acc.1 ++ ["Missing file: " ++ pyJoin d theme_file.file], acc.2)
        else
          match fs.read (pyJoin d theme_file.file) with
          | some Content.notJson =>
            (acc.1, acc.2 ++ ["Corrupted JSON file: " ++ pyJoin d theme_file.file])
          | _ => acc)
      acc
    = (acc.1
        ++ (tfs.filter (fun tf => !fs.pathExists (pyJoin d tf.file))).map
            (fun tf => "Missing file: " ++ pyJoin d tf.file),
       acc.2
        ++ (tfs.filter (fun tf => fs.pathExists (pyJoin d tf.file)
              && decide (fs.read (pyJoin d tf.file) = some Content.notJson))).map
            (fun tf => "Corrupted JSON file: " ++ pyJoin d tf.file)) := by
  induction tfs generalizing acc with
  | nil => simp
  | cons tf tfs ih =>
    have htail : ∀ tf ∈ tfs, fs.pathExists (pyJoin d tf.file) = true →
        fs.isFile (pyJoin d tf.file) = true :=
      fun x hx => h x (List.mem_cons_of_mem _ hx)
    rw [List.foldl_cons]
    cases hp : fs.pathExists (pyJoin d tf.file) with
    | false =>
      simp only [hp, Bool.not_false, if_pos]
      rw [ih htail]
      simp [List.filter_cons, hp]
    | true =>
      obtain ⟨c, hc⟩ := FS.read_of_isFile (h tf (List.mem_cons_self _ _) hp)
      simp only [hp, Bool.not_true, Bool.false_eq_true, if_false, hc]
      cases c with
      | notJson =>
        rw [ih htail]
        simp [List.filter_cons, hp, hc]
      | manifestFile themes =>
        rw [ih htail]
        simp [List.filter_cons, hp, hc]
      | jsonOther =>
        rw [ih htail]
        simp [List.filter_cons, hp, hc]

theorem integrity_of_theme_spec (fs : FS) (theme : ThemeRecord)
    (h : assetOkOne fs theme = true) :
    integrity_of_theme fs theme = (specMissingOne fs theme, specCorruptedOne fs theme) := by
  unfold assetOkOne at h
  unfold integrity_of_theme specMissingOne specCorruptedOne
  cases htd : theme.theme_dir with
  | none => rfl
  | some d =>
    rw [htd] at h
    dsimp only at h
    by_cases hd : (d = "" || !fs.pathExists d) = true
    · simp [hd]
    · rw [Bool.not_eq_true] at hd
      rw [hd] at h
      simp only [Bool.false_eq_true, if_false] at h
      simp only [hd, Bool.false_eq_true, if_false]
      have hall : ∀ tf ∈ theme.theme_files.getD [],
          fs.pathExists (pyJoin d tf.file) = true →
            fs.isFile (pyJoin d tf.file) = true := by
        intro tf htf hp
        have hh := List.all_eq_true.mp h tf htf
        rw [hp] at hh
        simpa using hh
      rw [integrity_fold_spec fs d (theme.theme_files.getD []) hall ([], [])]
      simp

theorem foldl_pair_append (f : ThemeRecord → List String × List String)
    (l : List ThemeRecord) (acc : List String × List String) :
    l.foldl (fun acc theme => (acc.1 ++ (f theme).1, acc.2 ++ (f theme).2)) acc
      = (acc.1 ++ l.flatMap (fun x => (f x).1),
         acc.2 ++ l.flatMap (fun x => (f x).2)) := by
  induction l generalizing acc with
  | nil => simp
  | cons x xs ih => simp [ih]

theorem flatMap_congr_eq {α β : Type} {l : List α} {f g : α → List β}
    (h : ∀ a ∈ l, f a = g a) : l.flatMap f = l.flatMap g := by
  induction l with
  | nil => rfl
  | cons x xs ih =>
    simp only [List.flatMap_cons]
    rw [h x (List.mem_cons_self _ _), ih fun a ha => h a (List.mem_cons_of_mem _ ha)]

/-- C7: integrity verification is exhaustive and accurate.  Over a
partition in which no existing asset path names a directory, the collected
missing-file findings are exactly one directory failure per record whose
cache directory is absent or does not exist plus one failure per asset
whose file does not exist, and the corrupted-file findings are exactly one
per asset whose file exists but fails to parse as JSON (paths resolved by
`os.path.join(theme_dir, asset.file)` as in the source).  Both lists range
over every record of the partition: the check is total and no missing file
aborts the scan of the remaining records. -/
theorem claimC7_check_integrity (fs : FS) (themes : List ThemeRecord)
    (h : assetsAreFiles fs themes = true) :
    check_integrity fs themes
      = (specIntegrityMissing fs themes, specIntegrityCorrupted fs themes) := by
  unfold check_integrity
  dsimp only
  rw [foldl_pair_append (integrity_of_theme fs) themes ([], [])]
  unfold specIntegrityMissing specIntegrityCorrupted
  have hcong : ∀ theme ∈ themes,
      integrity_of_theme fs theme
        = (specMissingOne fs theme, specCorruptedOne fs theme) := by
    intro t ht
    exact integrity_of_theme_spec fs t (List.all_eq_true.mp h t ht)
  have h1 : ∀ t ∈ themes, (integrity_of_theme fs t).1 = specMissingOne fs t :=
    fun t ht => by rw [hcong t ht]
  have h2 : ∀ t ∈ themes, (integrity_of_theme fs t).2 = specCorruptedOne fs t :=
    fun t ht => by rw [hcong t ht]
  rw [flatMap_congr_eq h1, flatMap_congr_eq h2]
  simp

/-- Witness for C7: the record produced by the C1 scenario's first
acquisition, checked against the filesystem it produced. -/
theorem claimC7_witness :
    check_integrity c1First.fs [c1First.record]
      = (specIntegrityMissing c1First.fs [c1First.record],
         specIntegrityCorrupted c1First.fs [c1First.record]) :=
  claimC7_check_integrity c1First.fs [c1First.record] (by decide)

/-! ## Claim C3 -/

theorem find?_congr_eq {α : Type} {l : List α} {p q : α → Bool}
    (h : ∀ x ∈ l, p x = q x) : l.find? p = l.find? q := by
  induction l with
  | nil => rfl
  | cons x xs ih =>
    rw [List.find?_cons, List.find?_cons, h x (List.mem_cons_self _ _)]
    cases q x with
    | false => exact ih fun a ha => h a (List.mem_cons_of_mem _ ha)
    | true => rfl

theorem indexFold_snd_key (themes_dir : String) (ts : List ThemeRecord) :
    ∀ acc, (∀ p ∈ acc, p.2.extensionName = p.1) →
      ∀ p ∈ indexFold themes_dir acc ts, p.2.extensionName = p.1 := by
  induction ts with
  | nil => exact fun acc h => h
  | cons t ts ih =>
    intro acc h
    unfold indexFold
    rw [List.foldl_cons]
    by_cases hin : acc.any (fun p => p.1 = t.ext.extensionName) = true
    · simp only [hin, if_pos]
      exact ih acc h
    · rw [Bool.not_eq_true] at hin
      simp only [hin, Bool.false_eq_true, if_false]
      refine ih _ ?_
      intro p hp
      rcases List.mem_append.mp hp with hp | hp
      · exact h p hp
      · simp only [List.mem_singleton] at hp
        subst hp
        rfl

theorem indexFold_keys_nodup (themes_dir : String) (ts : List ThemeRecord) :
    ∀ acc, (acc.map Prod.fst).Nodup →
      ((indexFold themes_dir acc ts).map Prod.fst).Nodup := by
  induction ts with
  | nil => exact fun acc h => h
  | cons t ts ih =>
    intro acc h
    unfold indexFold
    rw [List.foldl_cons]
    by_cases hin : acc.any (fun p => p.1 = t.ext.extensionName) = true
    · simp only [hin, if_pos]
      exact ih acc h
    · rw [Bool.not_eq_true] at hin
      simp only [hin, Bool.false_eq_true, if_false]
      refine ih _ ?_
      rw [List.map_append]
      simp only [List.map_cons, List.map_nil]
      rw [List.nodup_append]
      refine ⟨h, List.nodup_singleton _, ?_⟩
      intro a ha hb
      simp only [List.mem_singleton] at hb
      subst hb
      rw [Bool.eq_false_iff] at hin
      apply hin
      rw [List.any_eq_true]
      obtain ⟨p, hp, hpa⟩ := List.mem_map.mp ha
      exact ⟨p, hp, by simp [hpa]⟩

theorem indexFold_find? (themes_dir : String) (ts : List ThemeRecord) :
    ∀ (acc : List (String × SearchEntry)) (n : String),
      (indexFold themes_dir acc ts).find? (fun p => p.1 = n)
        = (acc.find? (fun p => p.1 = n)).or
            ((ts.find? (fun t => t.ext.extensionName = n)).map
              (fun t => (t.ext.extensionName, mkSearchEntry themes_dir t))) := by
  induction ts with
  | nil =>
    intro acc n
    simp [indexFold]
  | cons t ts ih =>
    intro acc n
    unfold indexFold
    rw [List.foldl_cons]
    by_cases hin : acc.any (fun p => p.1 = t.ext.extensionName) = true
    · simp only [hin, if_pos]
      have hres := ih acc n
      unfold indexFold at hres
      rw [hres]
      by_cases hn : t.ext.extensionName = n
      · subst hn
        obtain ⟨p, hp, hpt⟩ := List.any_eq_true.mp hin
        have : (acc.find? (fun p => p.1 = t.ext.extensionName)).isSome := by
          rw [List.find?_isSome]
          exact ⟨p, hp, hpt⟩
        obtain ⟨q, hq⟩ := Option.isSome_iff_exists.mp this
        rw [hq]
        rfl
      · rw [List.find?_cons_of_neg]
        simp [hn]
    · rw [Bool.not_eq_true] at hin
      simp only [hin, Bool.false_eq_true, if_false]
      have hres := ih (acc ++ [(t.ext.extensionName, mkSearchEntry themes_dir t)]) n
      unfold indexFold at hres
      rw [hres, List.find?_append]
      by_cases hn : t.ext.extensionName = n
      · rw [List.find?_cons_of_pos _ (by simp [hn])]
        rw [List.find?_cons_of_pos _ (by simp [hn])]
        rw [Option.or_assoc]
        rfl
      · rw [List.find?_cons_of_neg _ (by simp [hn])]
        rw [List.find?_cons_of_neg _ (by simp [hn])]
        rw [List.find?_nil, Option.or_none]

theorem find?_key_countP {l : List (String × SearchEntry)} {n : String}
    (hnodup : (l.map Prod.fst).Nodup)
    (hfind : (l.find? (fun p => p.1 = n)).isSome) :
    l.countP (fun p => p.1 = n) = 1 := by
  induction l with
  | nil => simp [List.find?_nil] at hfind
  | cons x xs ih =>
    simp only [List.map_cons, List.nodup_cons] at hnodup
    by_cases hx : x.1 = n
    · rw [List.countP_cons]
      have hz : xs.countP (fun p => p.1 = n) = 0 := by
        rw [List.countP_eq_zero]
        intro p hp hpn
        exact hnodup.1 (List.mem_map.mpr ⟨p, hp, by
          rw [of_decide_eq_true hpn, hx]⟩)
      simp [hz, hx]
    · rw [List.countP_cons]
      rw [List.find?_cons_of_neg _ (by simp [hx])] at hfind
      simp [hx, ih hnodup.2 hfind]

/-- C3: search-index deduplication is first-wins.  For any partition
contents and single-item overrides, and any `extensionName` carried by at
least one record, the built search index holds exactly one entry for that
name, and it is the entry derived from the first record carrying that name
in the fixed traversal order (partitions in enum order, then the
single-item overrides); later duplicates are discarded. -/
theorem claimC3_search_index_dedup (partitions : ThemeSortOption → List ThemeRecord)
    (singles : List ThemeRecord) (themes_dir name : String)
    (h : (allThemes partitions singles).any
        (fun t => t.ext.extensionName = name) = true) :
    (build_search_index partitions singles themes_dir).countP
        (fun e => e.extensionName = name) = 1
    ∧ (build_search_index partitions singles themes_dir).find?
        (fun e => e.extensionName = name)
      = ((allThemes partitions singles).find?
          (fun t => t.ext.extensionName = name)).map (mkSearchEntry themes_dir) := by
  have hinv := indexFold_snd_key themes_dir (allThemes partitions singles) []
    (by simp)
  have hnd := indexFold_keys_nodup themes_dir (allThemes partitions singles) []
    (by simp)
  have hfd := indexFold_find? themes_dir (allThemes partitions singles) [] name
  rw [List.find?_nil, Option.none_or] at hfd
  have hsome : ((allThemes partitions singles).find?
      (fun t => t.ext.extensionName = name)).isSome := by
    rw [List.find?_isSome]
    obtain ⟨t, ht, hp⟩ := List.any_eq_true.mp h
    exact ⟨t, ht, hp⟩
  obtain ⟨t0, ht0⟩ := Option.isSome_iff_exists.mp hsome
  unfold build_search_index
  constructor
  · rw [List.countP_map]
    have hcong : (indexFold themes_dir [] (allThemes partitions singles)).countP
          ((fun e => decide (e.extensionName = name)) ∘ (fun p => p.2))
        = (indexFold themes_dir [] (allThemes partitions singles)).countP
          (fun p => p.1 = name) := by
      apply List.countP_congr
      intro p hp
      simp only [Function.comp_apply]
      rw [hinv p hp]
    rw [hcong]
    apply find?_key_countP hnd
    rw [hfd, ht0]
    simp
  · rw [List.find?_map]
    have hcong : (indexFold themes_dir [] (allThemes partitions singles)).find?
          ((fun e => decide (e.extensionName = name)) ∘ (fun p => p.2))
        = (indexFold themes_dir [] (allThemes partitions singles)).find?
          (fun p => p.1 = name) :=
      find?_congr_eq (fun p hp => by
        simp only [Function.comp_apply]
        rw [hinv p hp])
    rw [hcong, hfd, ht0]
    simp

/-- Witness for C3: one partition holds `sampleTheme`, the overrides hold
its newer version; the index keeps exactly the entry of the first. -/
theorem claimC3_witness :
    (build_search_index
        (fun o => match o with
          | ThemeSortOption.MostInstalled => [sampleTheme]
          | _ => [])
        [sampleThemeV2] "./themes/themes").countP
        (fun e => e.extensionName = "dark-pro") = 1
    ∧ (build_search_index
        (fun o => match o with
          | ThemeSortOption.MostInstalled => [sampleTheme]
          | _ => [])
        [sampleThemeV2] "./themes/themes").find?
        (fun e => e.extensionName = "dark-pro")
      = ((allThemes
          (fun o => match o with
            | ThemeSortOption.MostInstalled => [sampleTheme]
            | _ => [])
          [sampleThemeV2]).find?
          (fun t => t.ext.extensionName = "dark-pro")).map
         (mkSearchEntry "./themes/themes") :=
  claimC3_search_index_dedup
    (fun o => match o with
      | ThemeSortOption.MostInstalled => [sampleTheme]
      | _ => [])
    [sampleThemeV2] "./themes/themes" "dark-pro" (by decide)

/-! ## Claim C4 -/

theorem any_congr_eq {α : Type} {l : List α} {p q : α → Bool}
    (h : ∀ x ∈ l, p x = q x) : l.any p = l.any q := by
  induction l with
  | nil => rfl
  | cons x xs ih =>
    rw [List.any_cons, List.any_cons, h x (List.mem_cons_self _ _),
      ih fun a ha => h a (List.mem_cons_of_mem _ ha)]

theorem FS.isFile_removeFile_other {fs : FS} {x p : String}
    (h : canonStr x ≠ canonStr p) :
    (fs.removeFile x).isFile p = fs.isFile p := by
  unfold FS.removeFile FS.isFile
  dsimp only
  rw [List.any_filter]
  apply any_congr_eq
  intro a _
  by_cases hp : a.1 = canonStr p
  · simp [hp, Ne.symm h]
  · simp [hp]

theorem deleteFiles_nil (fs : FS) : deleteFiles fs [] = fs := rfl

theorem deleteFiles_cons (fs : FS) (x : String) (rest : List String) :
    deleteFiles fs (x :: rest)
      = deleteFiles (if fs.isFile x then fs.removeFile x else fs) rest := by
  unfold deleteFiles
  rw [List.foldl_cons]

theorem deleteFiles_dirs (ps : List String) : ∀ fs : FS,
    (deleteFiles fs ps).dirs = fs.dirs := by
  induction ps with
  | nil => intro fs; rfl
  | cons x rest ih =>
    intro fs
    rw [deleteFiles_cons, ih]
    by_cases hx : fs.isFile x = true
    · rw [if_pos hx]; rfl
    · rw [if_neg hx]

theorem deleteFiles_files_subset (ps : List String) : ∀ (fs : FS) (q : String × Content),
    q ∈ (deleteFiles fs ps).files → q ∈ fs.files := by
  induction ps with
  | nil => intro fs q h; exact h
  | cons x rest ih =>
    intro fs q h
    rw [deleteFiles_cons] at h
    have hq := ih _ q h
    by_cases hx : fs.isFile x = true
    · rw [if_pos hx] at hq
      simp only [FS.removeFile] at hq
      exact (List.mem_filter.mp hq).1
    · rwa [if_neg hx] at hq

theorem deleteFiles_removes (ps : List String) : ∀ (fs : FS) (p : String),
    p ∈ ps → canonStr p = p → (deleteFiles fs ps).isFile p = false := by
  induction ps with
  | nil => intro fs p hp _; exact absurd hp (List.not_mem_nil p)
  | cons x rest ih =>
    intro fs p hp hc
    rw [deleteFiles_cons]
    rcases List.mem_cons.mp hp with rfl | hp'
    · by_cases hmem : p ∈ rest
      · exact ih _ p hmem hc
      · have hfs' : (if fs.isFile p then fs.removeFile p else fs).isFile p = false := by
          by_cases hx : fs.isFile p = true
          · rw [if_pos hx]; exact FS.isFile_removeFile_self fs p
          · rw [if_neg hx]; exact Bool.eq_false_iff.mpr hx
        rw [Bool.eq_false_iff]
        intro hcontra
        unfold FS.isFile at hcontra
        obtain ⟨pr, hpr, hpr2⟩ := List.any_eq_true.mp hcontra
        have hin := deleteFiles_files_subset rest _ pr hpr
        rw [Bool.eq_false_iff] at hfs'
        apply hfs'
        unfold FS.isFile
        exact List.any_eq_true.mpr ⟨pr, hin, hpr2⟩
    · exact ih _ p hp' hc

theorem deleteFiles_keeps (ps : List String) : ∀ (fs : FS) (p : String),
    (∀ x ∈ ps, canonStr x ≠ canonStr p) →
    (deleteFiles fs ps).isFile p = fs.isFile p := by
  induction ps with
  | nil => intro fs p _; rfl
  | cons x rest ih =>
    intro fs p h
    rw [deleteFiles_cons, ih _ p (fun y hy => h y (List.mem_cons_of_mem _ hy))]
    by_cases hx : fs.isFile x = true
    · rw [if_pos hx]
      exact FS.isFile_removeFile_other (h x (List.mem_cons_self _ _))
    · rw [if_neg hx]

theorem rmdirFold_cons (fs : FS) (d : String) (ds : List String) :
    rmdirFold fs (d :: ds)
      = rmdirFold (if !fs.hasChild d then fs.rmdir d else fs) ds := by
  unfold rmdirFold
  rw [List.foldl_cons]

theorem rmdirFold_files (ds : List String) : ∀ fs : FS,
    (rmdirFold fs ds).files = fs.files := by
  induction ds with
  | nil => intro fs; rfl
  | cons d ds ih =>
    intro fs
    rw [rmdirFold_cons, ih]
    by_cases hd : (!fs.hasChild d) = true
    · rw [if_pos hd]; rfl
    · rw [if_neg hd]

theorem rmdirFold_dirs_subset (ds : List String) : ∀ (fs : FS) (p : String),
    p ∈ (rmdirFold fs ds).dirs → p ∈ fs.dirs := by
  induction ds with
  | nil => intro fs p h; exact h
  | cons d ds ih =>
    intro fs p h
    rw [rmdirFold_cons] at h
    have hp := ih _ p h
    by_cases hd : (!fs.hasChild d) = true
    · rw [if_pos hd] at hp
      simp only [FS.rmdir] at hp
      exact (List.mem_filter.mp hp).1
    · rwa [if_neg hd] at hp

theorem rmdirFold_preserves (ds : List String) : ∀ (fs : FS) (c : String),
    (∀ e ∈ ds, canonStr e ≠ c) → c ∈ fs.dirs → c ∈ (rmdirFold fs ds).dirs := by
  induction ds with
  | nil => intro fs c _ hc; exact hc
  | cons d ds ih =>
    intro fs c h hc
    rw [rmdirFold_cons]
    refine ih _ c (fun e he => h e (List.mem_cons_of_mem _ he)) ?_
    by_cases hd : (!fs.hasChild d) = true
    · rw [if_pos hd]
      simp only [FS.rmdir]
      rw [List.mem_filter]
      exact ⟨hc, by simpa using Ne.symm (h d (List.mem_cons_self _ _))⟩
    · rwa [if_neg hd]

theorem strictlyUnder_length {b q : List String}
    (h : strictlyUnder b q = true) : b.length < q.length := by
  unfold strictlyUnder at h
  rw [Bool.and_eq_true] at h
  exact of_decide_eq_true h.1

theorem rmdirFold_spec (ds : List String) : ∀ fs : FS,
    ds.Pairwise depthGE →
    (∀ e ∈ ds, canonStr e = e) →
    ∀ d ∈ ds, d ∈ (rmdirFold fs ds).dirs → (rmdirFold fs ds).hasChild d = true := by
  induction ds with
  | nil => intro fs _ _ d hd; exact absurd hd (List.not_mem_nil d)
  | cons e ds ih =>
    intro fs hsort hcanon d hd hdin
    obtain ⟨hhead, htail⟩ := List.pairwise_cons.mp hsort
    have hcanon' : ∀ x ∈ ds, canonStr x = x :=
      fun x hx => hcanon x (List.mem_cons_of_mem _ hx)
    cases hch : fs.hasChild e with
    | false =>
      rw [rmdirFold_cons] at hdin ⊢
      simp only [hch, Bool.not_false, if_true] at hdin ⊢
      rcases List.mem_cons.mp hd with rfl | hd'
      · exfalso
        have hmem := rmdirFold_dirs_subset ds _ d hdin
        simp only [FS.rmdir] at hmem
        rw [List.mem_filter, hcanon d (List.mem_cons_self _ _)] at hmem
        exact (of_decide_eq_true hmem.2) rfl
      · exact ih _ htail hcanon' d hd' hdin
    | true =>
      rw [rmdirFold_cons] at hdin ⊢
      simp only [hch, Bool.not_true, Bool.false_eq_true, if_false] at hdin ⊢
      rcases List.mem_cons.mp hd with rfl | hd'
      · unfold FS.hasChild at hch ⊢
        rw [Bool.or_eq_true] at hch ⊢
        rcases hch with hf | hdir
        · left
          rw [rmdirFold_files]
          exact hf
        · right
          obtain ⟨c, hc, hcs⟩ := List.any_eq_true.mp hdir
          rw [List.any_eq_true]
          refine ⟨c, ?_, hcs⟩
          apply rmdirFold_preserves ds fs c ?_ hc
          intro x hx heq
          have h1 : (canonParts x).length ≤ (canonParts d).length := hhead x hx
          have h2 : (canonParts d).length < (canonParts c).length :=
            strictlyUnder_length hcs
          rw [hcanon' x hx] at heq
          subst heq
          omega
      · exact ih fs htail hcanon' d hd' hdin

theorem cleanup_eq (recordLists : List (List ThemeRecord)) (themes_dir : String)
    (fs : FS) :
    cleanup recordLists themes_dir fs
      = removeEmptyDirs
          (deleteFiles fs
            (((globAll fs themes_dir).map pyReplaceDotSlash).filter
              (fun p => !(recordLists.flatMap (get_all_theme_files fs)).contains p)))
          themes_dir := rfl

theorem removeEmptyDirs_files (fs : FS) (d : String) :
    (removeEmptyDirs fs d).files = fs.files := by
  unfold removeEmptyDirs
  exact rmdirFold_files _ fs

theorem removeEmptyDirs_isFile (fs : FS) (d p : String) :
    (removeEmptyDirs fs d).isFile p = fs.isFile p := by
  unfold FS.isFile
  rw [removeEmptyDirs_files]

theorem contains_of_mem {l : List String} {a : String} (h : a ∈ l) :
    l.contains a = true := by
  simpa using h

theorem mem_globAll {fs : FS} {themes_dir p : String}
    (hp : p ∈ fs.files.map (fun q => q.1) ++ fs.dirs)
    (hunder : strictlyUnder (canonParts themes_dir) (canonParts p) = true)
    (hhid : ((canonParts p).drop (canonParts themes_dir).length).all
        (fun c => !hiddenComp c) = true) :
    (themes_dir ++ "/" ++ joinSlash ((canonParts p).drop (canonParts themes_dir).length))
      ∈ globAll fs themes_dir := by
  unfold globAll
  dsimp only
  rw [List.mem_filterMap]
  refine ⟨p, hp, ?_⟩
  rw [if_pos (by rw [hunder, hhid]; rfl)]

theorem ftd_canonical {fs : FS} {themes_dir : String}
    (hfs : fsWellFormed themes_dir fs = true) (refs : List String) :
    ∀ x ∈ ((globAll fs themes_dir).map pyReplaceDotSlash).filter
        (fun p => !refs.contains p),
      canonStr x = x ∧ refs.contains x = false := by
  intro x hx
  rw [List.mem_filter] at hx
  obtain ⟨hx1, hx2⟩ := hx
  have hxn : refs.contains x = false := by
    cases hcx : refs.contains x with
    | false => rfl
    | true => rw [hcx] at hx2; simp at hx2
  rw [List.mem_map] at hx1
  obtain ⟨g, hg, hgx⟩ := hx1
  unfold globAll at hg
  dsimp only at hg
  rw [List.mem_filterMap] at hg
  obtain ⟨p0, hp0, hp0g⟩ := hg
  by_cases hcond : (strictlyUnder (canonParts themes_dir) (canonParts p0)
      && ((canonParts p0).drop (canonParts themes_dir).length).all
          (fun c => !hiddenComp c)) = true
  · rw [if_pos hcond] at hp0g
    have hg' := Option.some.inj hp0g
    rw [Bool.and_eq_true] at hcond
    unfold fsWellFormed at hfs
    rw [Bool.and_eq_true] at hfs
    have hwf : (decide (canonStr p0 = p0) && globCleanUnder themes_dir p0) = true := by
      rcases List.mem_append.mp hp0 with hp0f | hp0d
      · obtain ⟨pr, hpr, hpr1⟩ := List.mem_map.mp hp0f
        rw [← hpr1]
        exact List.all_eq_true.mp hfs.1 pr hpr
      · exact List.all_eq_true.mp hfs.2 p0 hp0d
    rw [Bool.and_eq_true] at hwf
    have hcanp0 : canonStr p0 = p0 := of_decide_eq_true hwf.1
    have hgc := hwf.2
    unfold globCleanUnder at hgc
    dsimp only at hgc
    rw [hcond.1] at hgc
    simp only [Bool.not_true, Bool.false_or, decide_eq_true_eq] at hgc
    rw [hg'] at hgc
    rw [hgx] at hgc
    subst hgc
    exact ⟨hcanp0, hxn⟩
  · rw [if_neg hcond] at hp0g
    exact absurd hp0g (by simp)

theorem refs_mem_of_record {fs : FS} {recordLists : List (List ThemeRecord)}
    {records : List ThemeRecord} {theme : ThemeRecord} {d : String}
    (h1 : records ∈ recordLists) (h2 : theme ∈ records)
    (hd : theme.theme_dir = some d)
    (hcond : (d ≠ "" && fs.pathExists d) = true) {r : String}
    (hr : r ∈ (theme.theme_files.getD []).map (fun tf => pyReplaceDotSlash tf.file)
        ++ [pyReplaceDotSlash (pyJoin3 d "extension" "package.json")]) :
    r ∈ recordLists.flatMap (get_all_theme_files fs) := by
  rw [List.mem_flatMap]
  refine ⟨records, h1, ?_⟩
  unfold get_all_theme_files
  rw [List.mem_flatMap]
  refine ⟨theme, h2, ?_⟩
  rw [hd]
  dsimp only
  rw [if_pos hcond]
  exact hr

/-- C4 (amended): reconciliation on a well-formed cache.  After `cleanup`,
(1) every regular file remaining strictly under the cache root whose
relative components are all non-hidden is referenced by a current record —
it occurs in the protected set built from the asset lists and manifest
paths of records whose recorded cache directory exists; (2) no false
deletion: for every record whose recorded cache directory exists, each of
its asset files and its manifest file that existed before the pass still
exists after it; (3) every directory left strictly under the root has a
remaining child: directories emptied by the pass are removed (bottom-up,
deepest first).  Hidden files (and files referenced only by records whose
cache directory is absent) are outside (1)-(2): glob never lists hidden
files, and `get_all_theme_files` skips records without an existing
directory. -/
theorem claimC4_cleanup_reconciliation (recordLists : List (List ThemeRecord))
    (themes_dir : String) (fs : FS)
    (hfs : fsWellFormed themes_dir fs = true)
    (hrec : recordsClean fs recordLists = true) :
    (∀ q ∈ (cleanup recordLists themes_dir fs).files,
        strictlyUnder (canonParts themes_dir) (canonParts q.1) = true →
        ((canonParts q.1).drop (canonParts themes_dir).length).all
          (fun c => !hiddenComp c) = true →
        (recordLists.flatMap (get_all_theme_files fs)).contains q.1 = true)
    ∧ (∀ records ∈ recordLists, ∀ theme ∈ records, ∀ d : String,
        theme.theme_dir = some d → (d ≠ "" && fs.pathExists d) = true →
        (∀ tf ∈ theme.theme_files.getD [],
          fs.isFile tf.file = true →
            (cleanup recordLists themes_dir fs).isFile tf.file = true)
        ∧ (fs.isFile (pyJoin3 d "extension" "package.json") = true →
            (cleanup recordLists themes_dir fs).isFile
              (pyJoin3 d "extension" "package.json") = true))
    ∧ (∀ d ∈ (cleanup recordLists themes_dir fs).dirs,
        strictlyUnder (canonParts themes_dir) (canonParts d) = true →
        (cleanup recordLists themes_dir fs).hasChild d = true) := by
  have hfs' := hfs
  unfold fsWellFormed at hfs'
  rw [Bool.and_eq_true] at hfs'
  refine ⟨?_, ?_, ?_⟩
  · -- soundness for non-hidden files
    intro q hq hunder hhid
    rw [cleanup_eq] at hq
    rw [removeEmptyDirs_files] at hq
    have hq0 : q ∈ fs.files := deleteFiles_files_subset _ _ q hq
    have hwfq := List.all_eq_true.mp hfs'.1 q hq0
    rw [Bool.and_eq_true] at hwfq
    have hcanq : canonStr q.1 = q.1 := of_decide_eq_true hwfq.1
    by_contra hnc
    have hc0 : (recordLists.flatMap (get_all_theme_files fs)).contains q.1 = false :=
      Bool.eq_false_iff.mpr hnc
    have hg := @mem_globAll fs themes_dir q.1
      (List.mem_append.mpr (Or.inl (List.mem_map.mpr ⟨q, hq0, rfl⟩))) hunder hhid
    have hgc := hwfq.2
    unfold globCleanUnder at hgc
    dsimp only at hgc
    rw [hunder] at hgc
    simp only [Bool.not_true, Bool.false_or, decide_eq_true_eq] at hgc
    have hmem_ftd : q.1 ∈ ((globAll fs themes_dir).map pyReplaceDotSlash).filter
        (fun p => !(recordLists.flatMap (get_all_theme_files fs)).contains p) := by
      rw [List.mem_filter]
      exact ⟨List.mem_map.mpr ⟨_, hg, hgc⟩, by rw [hc0]; rfl⟩
    have hgone := deleteFiles_removes _ fs q.1 hmem_ftd hcanq
    have hstill : (deleteFiles fs
        (((globAll fs themes_dir).map pyReplaceDotSlash).filter
          (fun p => !(recordLists.flatMap (get_all_theme_files fs)).contains p))).isFile
          q.1 = true := by
      unfold FS.isFile
      exact List.any_eq_true.mpr ⟨q, hq, by rw [hcanq]; simp⟩
    rw [hgone] at hstill
    exact absurd hstill (by simp)
  · -- no false deletion
    intro records hrecs theme htheme d hd hcond
    have hrc := List.all_eq_true.mp hrec records hrecs
    have hrt := List.all_eq_true.mp hrc theme htheme
    rw [hd] at hrt
    dsimp only at hrt
    rw [if_pos hcond, Bool.and_eq_true] at hrt
    constructor
    · intro tf htf hexists
      have hclean : pyReplaceDotSlash tf.file = canonStr tf.file :=
        of_decide_eq_true (List.all_eq_true.mp hrt.1 tf htf)
      rw [cleanup_eq, removeEmptyDirs_isFile]
      rw [deleteFiles_keeps]
      · exact hexists
      · intro x hx heq
        obtain ⟨hxc, hxn⟩ := ftd_canonical hfs _ x hx
        rw [hxc] at heq
        have hmemrefs : pyReplaceDotSlash tf.file
            ∈ recordLists.flatMap (get_all_theme_files fs) :=
          refs_mem_of_record hrecs htheme hd hcond
            (List.mem_append.mpr (Or.inl (List.mem_map.mpr ⟨tf, htf, rfl⟩)))
        rw [hclean, ← heq] at hmemrefs
        rw [contains_of_mem hmemrefs] at hxn
        exact absurd hxn (by simp)
    · intro hexists
      have hclean := of_decide_eq_true hrt.2
      rw [cleanup_eq, removeEmptyDirs_isFile]
      rw [deleteFiles_keeps]
      · exact hexists
      · intro x hx heq
        obtain ⟨hxc, hxn⟩ := ftd_canonical hfs _ x hx
        rw [hxc] at heq
        have hmemrefs : pyReplaceDotSlash (pyJoin3 d "extension" "package.json")
            ∈ recordLists.flatMap (get_all_theme_files fs) :=
          refs_mem_of_record hrecs htheme hd hcond
            (List.mem_append.mpr (Or.inr (List.mem_singleton.mpr rfl)))
        rw [hclean, ← heq] at hmemrefs
        rw [contains_of_mem hmemrefs] at hxn
        exact absurd hxn (by simp)
  · -- empty directories are pruned
    intro d hd hunder
    rw [cleanup_eq] at hd ⊢
    unfold removeEmptyDirs at hd ⊢
    apply rmdirFold_spec _ _ (List.sorted_insertionSort depthGE _) ?_ d ?_ hd
    · intro e he
      have he' := (List.perm_insertionSort depthGE _).mem_iff.mp he
      have he'' : e ∈ fs.dirs := by
        have := (List.mem_filter.mp he').1
        rwa [deleteFiles_dirs] at this
      have hwfe := List.all_eq_true.mp hfs'.2 e he''
      rw [Bool.and_eq_true] at hwfe
      exact of_decide_eq_true hwfe.1
    · have hd' := rmdirFold_dirs_subset _ _ d hd
      apply (List.perm_insertionSort depthGE _).mem_iff.mpr
      exact List.mem_filter.mpr ⟨hd', hunder⟩

/-- C4 counterexample, two defects at concrete inputs.  First: with no
records at all, a hidden file `t/p.e/1.0/.hidden` under the cache root
survives `cleanup` although the referenced set is empty — glob's `*` never
matches names starting with a dot — refuting "every regular file remaining
under the root is referenced".  Second: a record whose recorded cache
directory does not exist references the existing file `t/x.json`, and
`cleanup` deletes that file — refuting "every file so referenced by a
current record still exists after the pass". -/
theorem claimC4_counterexample :
    (cleanup [[]] "t" c4HiddenFS).isFile "t/p.e/1.0/.hidden" = true
    ∧ ([[]] : List (List ThemeRecord)).flatMap (get_all_theme_files c4HiddenFS) = []
    ∧ c4PlainFS.isFile "t/x.json" = true
    ∧ c4RecNoDir.theme_files
        = some [{ file := "t/x.json", name := "X", uiTheme := "" }]
    ∧ (cleanup [[c4RecNoDir]] "t" c4PlainFS).isFile "t/x.json" = false := by
  decide

/-- Witness for C4 at a concrete well-formed cache: one record with an
existing version directory, its manifest and one theme file, plus a stray
file. -/
theorem claimC4_witness :
    (∀ q ∈ (cleanup [[c4WitRec]] "t" c4WitFS).files,
        strictlyUnder (canonParts "t") (canonParts q.1) = true →
        ((canonParts q.1).drop (canonParts "t").length).all
          (fun c => !hiddenComp c) = true →
        ([[c4WitRec]].flatMap (get_all_theme_files c4WitFS)).contains q.1 = true)
    ∧ (∀ records ∈ [[c4WitRec]], ∀ theme ∈ records, ∀ d : String,
        theme.theme_dir = some d → (d ≠ "" && c4WitFS.pathExists d) = true →
        (∀ tf ∈ theme.theme_files.getD [],
          c4WitFS.isFile tf.file = true →
            (cleanup [[c4WitRec]] "t" c4WitFS).isFile tf.file = true)
        ∧ (c4WitFS.isFile (pyJoin3 d "extension" "package.json") = true →
            (cleanup [[c4WitRec]] "t" c4WitFS).isFile
              (pyJoin3 d "extension" "package.json") = true))
    ∧ (∀ d ∈ (cleanup [[c4WitRec]] "t" c4WitFS).dirs,
        strictlyUnder (canonParts "t") (canonParts d) = true →
        (cleanup [[c4WitRec]] "t" c4WitFS).hasChild d = true) :=
  claimC4_cleanup_reconciliation [[c4WitRec]] "t" c4WitFS (by decide) (by decide)
